import Mathlib

/-!
Shallow embedding of the deep-research pipeline core, translated from
`src/deepresearch/models.ts` and `src/deepresearch/research-pipeline.ts`.

Modelling conventions:
* LLM collaborators (`generateText` / `generateObject`) and the web-search
  provider (`searchOnExa`) are opaque oracles passed in as function
  parameters; an oracle that can reject (a JavaScript promise rejection /
  thrown error) is embedded as a function into `Except ε _`.
* A `Promise.all` fan-out over such fallible tasks is embedded as the
  left-to-right sequencing of the corresponding `Except` computations:
  the join succeeds with the list of all values exactly when every branch
  succeeds, and propagates the first rejection otherwise, which is the
  observable behaviour of `Promise.all` over pure tasks.
* JavaScript strings are Lean `String`s; `s.substring(0, n)` is `s.take n`.
* The on-disk cache directory is embedded as an association list from
  path names to file data; `JSON.stringify`/`JSON.parse` of a
  `SearchResults` value (a record of plain strings) is lossless, so file
  contents are embedded as a `FileData` value rather than raw text.
-/

namespace DeepResearch

/-- Document model, from `SearchResult` in `models.ts`: title, link and raw
content are strings, `filteredRawContent` (the summary) is optional. -/
structure SearchResult where
  title : String
  link : String
  content : String
  filteredRawContent : Option String := none
deriving DecidableEq, Repr, Inhabited

/-- Result-set model, from `SearchResults` in `models.ts`: an ordered list
of documents. -/
structure SearchResults where
  results : List SearchResult
deriving DecidableEq, Repr

/-- `SearchResults.add` from `models.ts`: concatenation of the two result
lists. -/
def SearchResults.add (a b : SearchResults) : SearchResults :=
  ⟨a.results ++ b.results⟩

/-- Loop body of `SearchResults.dedup` from `models.ts`: walk the result
list keeping a set of seen links (embedded as a list), keeping each result
whose link has not been seen before. -/
def dedupGo : List SearchResult → List String → List SearchResult
  | [], _ => []
  | r :: rest, seenLinks =>
    if r.link ∈ seenLinks then
      dedupGo rest seenLinks
    else
      r :: dedupGo rest (r.link :: seenLinks)

/-- `SearchResults.dedup` from `models.ts`: remove duplicate results by
URL, first occurrence wins. -/
def SearchResults.dedup (sr : SearchResults) : SearchResults :=
  ⟨dedupGo sr.results []⟩

/-- User-message construction in `_summarize_content_async`: the raw
content and the research topic are spliced into a tagged prompt. -/
def rawContentSummarizerInput (content query : String) : String :=
  "<Raw Content>" ++ content ++ "</Raw Content>\n\n<Research Topic>" ++
    query ++ "</Research Topic>"

/-- `_summarize_content_async` from `research-pipeline.ts`: one
summarization task. It forwards the document's raw content and the query
to the `generateText` collaborator and returns the generated text. The
source installs no error handler here, so a collaborator rejection
propagates to the caller. -/
def summarizeContentAsync (generateText : String → Except ε String)
    (query : String) (result : SearchResult) : Except ε String :=
  generateText (rawContentSummarizerInput result.content query)

/-- The `Promise.all(summarizationTasks)` join inside
`processSearchResultsWithSummarization`: succeeds with the list of all
summaries exactly when every task succeeds, and propagates a rejection
otherwise. -/
def collectSummaries (generateText : String → Except ε String)
    (query : String) : List SearchResult → Except ε (List String)
  | [] => Except.ok []
  | r :: rest => do
    let s ← summarizeContentAsync generateText query r
    let others ← collectSummaries generateText query rest
    return s :: others

/-- `processSearchResultsWithSummarization` from `research-pipeline.ts`:
results with falsy (empty) `content` are skipped when building
`resultInfo` and the task list (`if (!result.content) continue`), the
tasks are joined, and the formatted output is rebuilt from `resultInfo`
zipped with the summaries. `result.title || ""` is the identity on
strings (an empty title stays empty), so it is embedded as `title`. -/
def processSearchResultsWithSummarization (generateText : String → Except ε String)
    (query : String) (results : List SearchResult) : Except ε (List SearchResult) := do
  let resultInfo := results.filter (fun r => r.content != "")
  let summarizedContents ← collectSummaries generateText query resultInfo
  return (resultInfo.zip summarizedContents).map (fun p =>
    { title := p.1.title, link := p.1.link, content := p.1.content,
      filteredRawContent := some p.2 })

/-- Query preparation in `webSearch` from `research-pipeline.ts`: a query
longer than 400 characters is truncated to its first 400 characters
before being handed to the search provider; shorter queries pass through
unchanged. -/
def webSearchSentQuery (query : String) : String :=
  if query.length > 400 then query.take 400 else query

/-- `webSearch` from `research-pipeline.ts`: truncate the query, call the
search provider, then run the summarization pass over the provider's
results. -/
def webSearch (generateText : String → Except ε String)
    (searchOnExa : String → List SearchResult) (query : String) :
    Except ε SearchResults := do
  let q := webSearchSentQuery query
  let processed ← processSearchResultsWithSummarization generateText q (searchOnExa q)
  return SearchResults.mk processed

/-- `generateInitialQueries` from `research-pipeline.ts`: the planner's
queries with the original topic prepended as the first query, capped to
`maxQueries` when that is positive; the empty-list guard then returns the
list (or `[]` when it is empty). The planner collaborator's output is the
`plannedQueries` parameter. -/
def generateInitialQueries (maxQueries : Int) (topic : String)
    (plannedQueries : List String) : List String :=
  let allQueries := topic :: plannedQueries
  let capped := if maxQueries > 0 then allQueries.take maxQueries.toNat else allQueries
  if capped.length = 0 then [] else capped

/-- `conductIterativeResearch` from `research-pipeline.ts`, with the
`evaluateResearchCompleteness` and `performSearch` collaborators passed
in as oracles (the topic is constant over the loop and absorbed into
them). The `Nat` argument is the remaining refinement budget
(`researchConfig.budget` minus the iterations already run), and the third
component of the output counts the evaluate-then-search refinement cycles
actually performed. -/
def conductIterativeResearch (evaluate : SearchResults → List String → List String)
    (performSearch : List String → SearchResults) (maxQueries : Int) :
    Nat → SearchResults → List String → SearchResults × List String × Nat
  | 0, results, allQueries => (results, allQueries, 0)
  | budget + 1, results, allQueries =>
    let additionalQueries := evaluate results allQueries
    if additionalQueries = [] then (results, allQueries, 0)
    else
      let queriesToUse :=
        if maxQueries > 0 then additionalQueries.take maxQueries.toNat
        else additionalQueries
      let next := conductIterativeResearch evaluate performSearch maxQueries budget
        (results.add (performSearch queriesToUse)) (allQueries ++ queriesToUse)
      (next.1, next.2.1, next.2.2 + 1)

/-- Index-selection logic of `filterResults` from `research-pipeline.ts`,
with the model-returned index list passed in as the `sources` parameter:
the source first caps `sources` to `maxSources` (when positive), then
filters the capped list to indices in `[1, results.length]`, then maps
each surviving 1-based index to the corresponding document. Returns the
filtered results together with `limitedSources`. -/
def filterResults (maxSources : Int) (results : SearchResults)
    (sources : List Int) : SearchResults × List Int :=
  let limitedSources := if maxSources > 0 then sources.take maxSources.toNat else sources
  (SearchResults.mk
    ((limitedSources.filter
        (fun i => decide (0 < i ∧ i ≤ (results.results.length : Int)))).map
      (fun i => (results.results.get? (i - 1).toNat).getD default)),
   limitedSources)

/-- The index-selection order described by the specification sentence for
the source filter: first drop every index outside `[1, results.length]`,
then cap the remaining indices to `maxSources`. Written from the spec's
words for comparison with `filterResults`. -/
def filterResultsClaimed (maxSources : Int) (results : SearchResults)
    (sources : List Int) : SearchResults × List Int :=
  let validSources := sources.filter
    (fun i => decide (0 < i ∧ i ≤ (results.results.length : Int)))
  let limitedSources := if maxSources > 0 then validSources.take maxSources.toNat
    else validSources
  (SearchResults.mk
    (limitedSources.map
      (fun i => (results.results.get? (i - 1).toNat).getD default)),
   limitedSources)

/-- Contents of one file of the embedded cache directory: lock files are
written with the empty string, cache entries hold the JSON serialization
of a `SearchResults` value, which is lossless for this record of plain
strings and is therefore embedded structurally. -/
inductive FileData where
  | empty
  | json (results : List SearchResult)
deriving DecidableEq, Repr

/-- The cache directory, embedded as an association list from path names
to file data (most recent write first). -/
abbrev FS := List (String × FileData)

/-- Read a file: the most recent write to the path, if any. -/
def fsRead (fs : FS) (p : String) : Option FileData :=
  (fs.find? (fun e => e.1 == p)).map (fun e => e.2)

/-- `fs.existsSync`. -/
def fsExists (fs : FS) (p : String) : Bool :=
  (fsRead fs p).isSome

/-- `fs.writeFileSync`: replace any previous content of the path. -/
def fsWrite (fs : FS) (p : String) (d : FileData) : FS :=
  (p, d) :: fs.filter (fun e => e.1 != p)

/-- `fs.unlinkSync`: remove the path. -/
def fsUnlink (fs : FS) (p : String) : FS :=
  fs.filter (fun e => e.1 != p)

/-- The guarded unlink in the `finally` block of `saveToCache`:
`if (fs.existsSync(lockPath)) fs.unlinkSync(lockPath)`. -/
def fsUnlinkIfExists (fs : FS) (p : String) : FS :=
  if fsExists fs p then fsUnlink fs p else fs

/-- `getCachePath` from `research-pipeline.ts`: the cache file path is
the cache directory joined with `exa_` plus the md5 hex digest of the
query plus `.json`; the digest function is passed in as an oracle. -/
def getCachePath (md5 : String → String) (cacheDir query : String) : String :=
  cacheDir ++ "/exa_" ++ md5 query ++ ".json"

/-- `getLockPath` from `research-pipeline.ts`. -/
def getLockPath (cachePath : String) : String :=
  cachePath ++ ".lock"

/-- Body of the `try`/`finally` in `saveToCache`, entered after the lock
file has been created: attempt the cache write (whose success is the
`writeOk` parameter, since `fs.writeFileSync` can throw), then remove the
lock file on both the normal and the throwing path. The boolean in the
result is `false` when `saveToCache` rethrows the write failure. -/
def saveToCacheAcquired (cachePath lockPath : String) (results : SearchResults)
    (writeOk : Bool) (fs : FS) : Bool × FS :=
  if writeOk then
    (true, fsUnlinkIfExists (fsWrite fs cachePath (FileData.json results.results)) lockPath)
  else
    (false, fsUnlinkIfExists fs lockPath)

/-- `saveToCache` from `research-pipeline.ts`: a no-op when caching is
disabled; otherwise create the lock file, write the entry inside
`try`/`finally`, and remove the lock in the `finally`. -/
def saveToCache (useCache : Bool) (md5 : String → String) (cacheDir query : String)
    (results : SearchResults) (writeOk : Bool) (fs : FS) : Bool × FS :=
  if useCache = false then (true, fs)
  else
    let cachePath := getCachePath md5 cacheDir query
    let lockPath := getLockPath cachePath
    saveToCacheAcquired cachePath lockPath results writeOk (fsWrite fs lockPath FileData.empty)

/-- `loadFromCache` from `research-pipeline.ts`: absent when caching is
disabled, when no cache file exists, or when a lock file is present;
otherwise parse the entry, treating unparsable content as absent (the
`catch` branch logs and falls through to `null`). -/
def loadFromCache (useCache : Bool) (md5 : String → String) (cacheDir : String)
    (fs : FS) (query : String) : Option SearchResults :=
  if useCache = false then none
  else
    let cachePath := getCachePath md5 cacheDir query
    let lockPath := getLockPath cachePath
    if fsExists fs cachePath && !(fsExists fs lockPath) then
      match fsRead fs cachePath with
      | some (FileData.json rs) => some (SearchResults.mk rs)
      | _ => none
    else none

/-- Concrete documents used in witnesses and counterexamples. -/
def demoDoc (n : Nat) : SearchResult :=
  ⟨"t" ++ toString n, "u" ++ toString n, "c" ++ toString n, none⟩

/-- A document whose provider text is empty. -/
def demoEmptyDoc : SearchResult :=
  ⟨"te", "ue", "", none⟩

/-- A summarization collaborator that always succeeds. -/
def demoGenOk : String → Except String String :=
  fun _ => Except.ok "summary"

/-- A summarization collaborator that fails exactly on the document
`demoDoc 1` (for the query `"q"`) and succeeds elsewhere. -/
def demoGenSel : String → Except String String :=
  fun s =>
    if s = rawContentSummarizerInput (demoDoc 1).content "q" then Except.error "boom"
    else Except.ok "summary"

theorem mem_of_mem_dedupGo :
    ∀ {l : List SearchResult} {seen : List String} {r : SearchResult},
      r ∈ dedupGo l seen → r ∈ l ∧ r.link ∉ seen := by
  intro l
  induction l with
  | nil => intro seen r h; simp [dedupGo] at h
  | cons a rest ih =>
    intro seen r h
    simp only [dedupGo] at h
    by_cases ha : a.link ∈ seen
    · rw [if_pos ha] at h
      rcases ih h with ⟨h1, h2⟩
      exact ⟨List.mem_cons_of_mem _ h1, h2⟩
    · rw [if_neg ha] at h
      rcases List.mem_cons.mp h with rfl | h'
      · exact ⟨List.mem_cons_self _ _, ha⟩
      · rcases ih h' with ⟨h1, h2⟩
        refine ⟨List.mem_cons_of_mem _ h1, fun hc => h2 ?_⟩
        exact List.mem_cons_of_mem _ hc

theorem nodup_map_link_dedupGo :
    ∀ (l : List SearchResult) (seen : List String),
      ((dedupGo l seen).map (fun r => r.link)).Nodup := by
  intro l
  induction l with
  | nil => intro seen; simp [dedupGo]
  | cons a rest ih =>
    intro seen
    simp only [dedupGo]
    by_cases ha : a.link ∈ seen
    · rw [if_pos ha]; exact ih seen
    · rw [if_neg ha]
      simp only [List.map_cons, List.nodup_cons]
      constructor
      · intro hc
        rcases List.mem_map.mp hc with ⟨r, hr, hlink⟩
        have := (mem_of_mem_dedupGo hr).2
        exact this (hlink ▸ List.mem_cons_self _ _)
      · exact ih _

theorem mem_map_link_dedupGo :
    ∀ {l : List SearchResult} {seen : List String} {u : String},
      u ∉ seen → u ∈ l.map (fun r => r.link) →
      u ∈ (dedupGo l seen).map (fun r => r.link) := by
  intro l
  induction l with
  | nil => intro seen u _ h; simp at h
  | cons a rest ih =>
    intro seen u hu h
    simp only [List.map_cons, List.mem_cons] at h
    simp only [dedupGo]
    by_cases ha : a.link ∈ seen
    · rw [if_pos ha]
      rcases h with rfl | h'
      · exact absurd ha hu
      · exact ih hu h'
    · rw [if_neg ha]
      simp only [List.map_cons, List.mem_cons]
      rcases h with rfl | h'
      · exact Or.inl rfl
      · by_cases heq : u = a.link
        · exact Or.inl heq
        · refine Or.inr (ih ?_ h')
          simp only [List.mem_cons]
          rintro (hc | hc)
          · exact heq hc
          · exact hu hc

theorem dedupGo_sublist :
    ∀ (l : List SearchResult) (seen : List String),
      (dedupGo l seen).Sublist l := by
  intro l
  induction l with
  | nil => intro seen; simp [dedupGo]
  | cons a rest ih =>
    intro seen
    simp only [dedupGo]
    by_cases ha : a.link ∈ seen
    · rw [if_pos ha]
      exact (ih seen).cons a
    · rw [if_neg ha]
      exact (ih _).cons₂ a

theorem dedupGo_self :
    ∀ {l : List SearchResult} {seen : List String},
      (l.map (fun r => r.link)).Nodup → (∀ r ∈ l, r.link ∉ seen) →
      dedupGo l seen = l := by
  intro l
  induction l with
  | nil => intro seen _ _; rfl
  | cons a rest ih =>
    intro seen hnd hs
    simp only [List.map_cons, List.nodup_cons] at hnd
    have ha : a.link ∉ seen := hs a (List.mem_cons_self _ _)
    simp only [dedupGo, if_neg ha]
    congr 1
    refine ih hnd.2 ?_
    intro r hr
    simp only [List.mem_cons]
    rintro (hc | hc)
    · exact hnd.1 (hc ▸ List.mem_map_of_mem (fun r => r.link) hr)
    · exact hs r (List.mem_cons_of_mem _ hr) hc

theorem find?_dedupGo :
    ∀ {l : List SearchResult} {seen : List String} {u : String},
      u ∉ seen →
      (dedupGo l seen).find? (fun r => r.link == u) =
        l.find? (fun r => r.link == u) := by
  intro l
  induction l with
  | nil => intro seen u _; rfl
  | cons a rest ih =>
    intro seen u hu
    simp only [dedupGo]
    by_cases ha : a.link ∈ seen
    · rw [if_pos ha]
      have hne : (a.link == u) = false :=
        beq_eq_false_iff_ne.mpr (fun hc => hu (hc ▸ ha))
      simp only [List.find?_cons, hne]
      exact ih hu
    · rw [if_neg ha]
      by_cases heq : a.link = u
      · have hq : (a.link == u) = true := beq_iff_eq.mpr heq
        simp only [List.find?_cons, hq]
      · have hne : (a.link == u) = false := beq_eq_false_iff_ne.mpr heq
        simp only [List.find?_cons, hne]
        refine ih ?_
        simp only [List.mem_cons]
        rintro (hc | hc)
        · exact heq hc.symm
        · exact hu hc

/-- C5: `dedup` is idempotent, its output is a sublist of its input
(preserving relative order), it keeps exactly one document per distinct
url occurring in the input, and for each url the kept document is the
first occurrence in input order. -/
theorem dedup_spec (x : SearchResults) :
    x.dedup.dedup = x.dedup
    ∧ x.dedup.results.Sublist x.results
    ∧ (∀ u, u ∈ x.results.map (fun r => r.link) →
        x.dedup.results.countP (fun r => r.link == u) = 1)
    ∧ (∀ u, x.dedup.results.find? (fun r => r.link == u) =
        x.results.find? (fun r => r.link == u)) := by
  refine ⟨?_, ?_, ?_, ?_⟩
  · show SearchResults.mk (dedupGo (dedupGo x.results []) []) = _
    rw [dedupGo_self (nodup_map_link_dedupGo x.results []) (by simp)]
    rfl
  · exact dedupGo_sublist x.results []
  · intro u hu
    have hmem : u ∈ (dedupGo x.results []).map (fun r => r.link) :=
      mem_map_link_dedupGo (by simp) hu
    have hnd : ((dedupGo x.results []).map (fun r => r.link)).Nodup :=
      nodup_map_link_dedupGo x.results []
    have hcount : ((dedupGo x.results []).map (fun r => r.link)).count u = 1 := by
      refine le_antisymm (List.nodup_iff_count_le_one.mp hnd u) ?_
      exact List.count_pos_iff.mpr hmem
    calc (dedupGo x.results []).countP (fun r => r.link == u)
        = ((dedupGo x.results []).map (fun r => r.link)).countP (fun s => s == u) := by
          rw [List.countP_map]; rfl
      _ = 1 := hcount
  · intro u
    exact find?_dedupGo (by simp)

/-- Witness for C5 at a concrete result set containing a duplicated url. -/
theorem dedup_spec_witness :
    (SearchResults.mk
      [⟨"t1", "u1", "c1", none⟩, ⟨"t2", "u2", "c2", none⟩,
       ⟨"t3", "u1", "c3", none⟩]).dedup.results.countP
        (fun r => r.link == "u1") = 1 := by
  have h := dedup_spec (SearchResults.mk
    [⟨"t1", "u1", "c1", none⟩, ⟨"t2", "u2", "c2", none⟩,
     ⟨"t3", "u1", "c3", none⟩])
  exact h.2.2.1 "u1" (by decide)

/-- C9: the initial query batch has the original topic as its first
element — the topic is prepended before the `maxQueries` cap is applied —
and the batch is never empty; in particular for positive `maxQueries` it
is non-empty even when the planner returns no queries. -/
theorem generateInitialQueries_topic_first (maxQueries : Int) (topic : String)
    (plannedQueries : List String) :
    (generateInitialQueries maxQueries topic plannedQueries).head? = some topic
    ∧ generateInitialQueries maxQueries topic plannedQueries ≠ []
    ∧ (0 < maxQueries → plannedQueries = [] →
        generateInitialQueries maxQueries topic plannedQueries ≠ []) := by
  have hcap : ∃ tl, (if maxQueries > 0
      then (topic :: plannedQueries).take maxQueries.toNat
      else topic :: plannedQueries) = topic :: tl := by
    by_cases h : maxQueries > 0
    · obtain ⟨n, hn⟩ : ∃ n, maxQueries.toNat = n + 1 :=
        Nat.exists_eq_succ_of_ne_zero (by omega)
      rw [if_pos h, hn, List.take_succ_cons]
      exact ⟨plannedQueries.take n, rfl⟩
    · rw [if_neg h]
      exact ⟨plannedQueries, rfl⟩
  obtain ⟨tl, htl⟩ := hcap
  have hres : generateInitialQueries maxQueries topic plannedQueries = topic :: tl := by
    simp only [generateInitialQueries, htl, List.length_cons]
    simp
  exact ⟨by rw [hres]; rfl, by rw [hres]; simp, fun _ _ => by rw [hres]; simp⟩

/-- Witness for C9: with `maxQueries = 2` and a planner returning no
queries, the initial batch is non-empty. -/
theorem generateInitialQueries_topic_first_witness :
    generateInitialQueries 2 "topic" [] ≠ [] := by
  have h := generateInitialQueries_topic_first 2 "topic" []
  exact h.2.2 (by decide) rfl

/-- C6: the query `webSearch` hands to the search collaborator is the
original string when its length is at most 400 characters, and exactly
its first 400 characters when it is longer; a long query is silently
truncated and still searched, never rejected. -/
theorem webSearch_truncation_spec (query : String) :
    (query.length ≤ 400 → webSearchSentQuery query = query)
    ∧ (400 < query.length →
        webSearchSentQuery query = query.take 400
        ∧ (webSearchSentQuery query).length = 400
        ∧ (webSearchSentQuery query).data = query.data.take 400)
    ∧ (∀ (ε : Type) (generateText : String → Except ε String)
        (searchOnExa : String → List SearchResult),
        webSearch generateText searchOnExa query =
          (processSearchResultsWithSummarization generateText
            (webSearchSentQuery query)
            (searchOnExa (webSearchSentQuery query))).map SearchResults.mk) := by
  refine ⟨fun h => ?_, fun h => ⟨?_, ?_, ?_⟩, fun ε generateText searchOnExa => ?_⟩
  · simp only [webSearchSentQuery]
    rw [if_neg (by omega)]
  · simp only [webSearchSentQuery]
    rw [if_pos (by omega)]
  · simp only [webSearchSentQuery]
    rw [if_pos (by omega), String.take_eq]
    have hd : query.data.length = query.length := rfl
    show (query.data.take 400).length = 400
    rw [List.length_take]
    omega
  · simp only [webSearchSentQuery]
    rw [if_pos (by omega), String.take_eq]
  · cases hp : processSearchResultsWithSummarization generateText
      (webSearchSentQuery query) (searchOnExa (webSearchSentQuery query)) with
    | error e => simp [webSearch, hp, Except.map]
    | ok l => simp [webSearch, hp, Except.map]

/-- Witness for C6 at a 401-character query and a short query. -/
theorem webSearch_truncation_spec_witness :
    webSearchSentQuery (String.mk (List.replicate 401 'a'))
      = (String.mk (List.replicate 401 'a')).take 400
    ∧ webSearchSentQuery "hi" = "hi" := by
  have h1 := webSearch_truncation_spec (String.mk (List.replicate 401 'a'))
  have h2 := webSearch_truncation_spec "hi"
  have hl : 400 < (String.mk (List.replicate 401 'a')).length := by
    show 400 < (List.replicate 401 'a').length
    rw [List.length_replicate]
    omega
  exact ⟨(h1.2.1 hl).1, h2.1 (by decide)⟩

theorem conductIterativeResearch_cycles_le
    (evaluate : SearchResults → List String → List String)
    (performSearch : List String → SearchResults) (maxQueries : Int) :
    ∀ (budget : Nat) (results : SearchResults) (allQueries : List String),
      (conductIterativeResearch evaluate performSearch maxQueries budget
        results allQueries).2.2 ≤ budget := by
  intro budget
  induction budget with
  | zero => intro r q; simp [conductIterativeResearch]
  | succ n ih =>
    intro r q
    simp only [conductIterativeResearch]
    by_cases h : evaluate r q = []
    · rw [if_pos h]; simp
    · rw [if_neg h]
      exact Nat.succ_le_succ (ih _ _)

/-- C1: for every refinement budget `N`, `conductIterativeResearch`
performs at most `N` evaluate-then-search refinement cycles whatever the
evaluator keeps returning; with budget `0` it performs none and returns
its inputs unchanged; and it stops with no further cycle as soon as the
evaluator returns an empty query list for the current state. -/
theorem conductIterativeResearch_budget_spec
    (evaluate : SearchResults → List String → List String)
    (performSearch : List String → SearchResults) (maxQueries : Int)
    (budget : Nat) (results : SearchResults) (allQueries : List String) :
    (conductIterativeResearch evaluate performSearch maxQueries budget
      results allQueries).2.2 ≤ budget
    ∧ conductIterativeResearch evaluate performSearch maxQueries 0
        results allQueries = (results, allQueries, 0)
    ∧ (evaluate results allQueries = [] →
        conductIterativeResearch evaluate performSearch maxQueries budget
          results allQueries = (results, allQueries, 0)) := by
  refine ⟨conductIterativeResearch_cycles_le evaluate performSearch maxQueries
    budget results allQueries, rfl, fun h => ?_⟩
  cases budget with
  | zero => rfl
  | succ n =>
    simp only [conductIterativeResearch]
    rw [if_pos h]

/-- Witness for C1: an evaluator that immediately reports completeness
stops the loop with zero refinement cycles under budget 3. -/
theorem conductIterativeResearch_budget_spec_witness :
    conductIterativeResearch (fun _ _ => []) (fun _ => SearchResults.mk [])
      2 3 (SearchResults.mk []) ["q"] = (SearchResults.mk [], ["q"], 0) := by
  exact (conductIterativeResearch_budget_spec (fun _ _ => [])
    (fun _ => SearchResults.mk []) 2 3 (SearchResults.mk []) ["q"]).2.2 rfl

/-- C10: `filterResults` does not deduplicate the model-returned indices:
for a result set of size 2 and response `[1, 1]` under `maxSources = 5`,
the output contains document 1 twice. -/
theorem filterResults_duplicate_indices :
    (filterResults 5 (SearchResults.mk [demoDoc 1, demoDoc 2]) [1, 1]).1.results
      = [demoDoc 1, demoDoc 1] := by
  decide

theorem filter_map_get_eq_filterMap (R : List SearchResult) :
    ∀ L : List Int,
      (L.filter (fun i => decide (0 < i ∧ i ≤ (R.length : Int)))).map
        (fun i => (R.get? (i - 1).toNat).getD default)
      = L.filterMap (fun i => if 0 < i ∧ i ≤ (R.length : Int)
          then R.get? (i - 1).toNat else none) := by
  intro L
  induction L with
  | nil => rfl
  | cons a L ih =>
    by_cases h : 0 < a ∧ a ≤ (R.length : Int)
    · have hlt : (a - 1).toNat < R.length := by omega
      have hget : R.get? (a - 1).toNat = some (R.get ⟨(a - 1).toNat, hlt⟩) :=
        List.get?_eq_get hlt
      have hfa : (fun i => if 0 < i ∧ i ≤ (R.length : Int)
          then R.get? (i - 1).toNat else none) a
          = some (R.get ⟨(a - 1).toNat, hlt⟩) := by
        show (if 0 < a ∧ a ≤ (R.length : Int)
          then R.get? (a - 1).toNat else none) = _
        rw [if_pos h, hget]
      have hstep := @List.filterMap_cons_some Int SearchResult
        (fun i => if 0 < i ∧ i ≤ (R.length : Int) then R.get? (i - 1).toNat else none)
        a L (R.get ⟨(a - 1).toNat, hlt⟩) hfa
      rw [List.filter_cons, if_pos (decide_eq_true h), hstep, List.map_cons, ih]
      congr 1
      show (R.get? (a - 1).toNat).getD default = _
      rw [hget, Option.getD_some]
    · have hfa : (fun i => if 0 < i ∧ i ≤ (R.length : Int)
          then R.get? (i - 1).toNat else none) a = none := by
        show (if 0 < a ∧ a ≤ (R.length : Int)
          then R.get? (a - 1).toNat else none) = none
        rw [if_neg h]
      have hstep := @List.filterMap_cons_none Int SearchResult
        (fun i => if 0 < i ∧ i ≤ (R.length : Int) then R.get? (i - 1).toNat else none)
        a L hfa
      rw [List.filter_cons, if_neg (by simp [h]), hstep]
      exact ih

/-- C2 counterexample: for a result set of size `k = 3`, model response
`[0, 1, k + 5, 3]` and `maxSources = 2`, the source caps the response to
`[0, 1]` before dropping invalid indices and so keeps only document 1,
while the claimed drop-then-cap order would keep documents 1 and 3. -/
theorem filterResults_order_counterexample :
    filterResults 2 (SearchResults.mk [demoDoc 1, demoDoc 2, demoDoc 3]) [0, 1, 8, 3]
      = (SearchResults.mk [demoDoc 1], [0, 1])
    ∧ filterResultsClaimed 2 (SearchResults.mk [demoDoc 1, demoDoc 2, demoDoc 3]) [0, 1, 8, 3]
      = (SearchResults.mk [demoDoc 1, demoDoc 3], [1, 3])
    ∧ filterResults 2 (SearchResults.mk [demoDoc 1, demoDoc 2, demoDoc 3]) [0, 1, 8, 3]
      ≠ filterResultsClaimed 2 (SearchResults.mk [demoDoc 1, demoDoc 2, demoDoc 3]) [0, 1, 8, 3] := by
  refine ⟨by decide, by decide, by decide⟩

/-- C2 amended: `filterResults` first caps the model-returned indices to
`maxSources` (when positive) and only then silently drops indices
outside `[1, k]`: the output documents are exactly those selected by the
valid indices of the capped prefix of the response, in the response's
order, the output never exceeds `maxSources` documents, and every output
document comes from the input result set. -/
theorem filterResults_spec (maxSources : Int) (results : SearchResults)
    (sources : List Int) :
    (filterResults maxSources results sources).1.results =
      (if maxSources > 0 then sources.take maxSources.toNat else sources).filterMap
        (fun i => if 0 < i ∧ i ≤ (results.results.length : Int)
          then results.results.get? (i - 1).toNat else none)
    ∧ (0 < maxSources →
        (filterResults maxSources results sources).1.results.length ≤ maxSources.toNat)
    ∧ (∀ r ∈ (filterResults maxSources results sources).1.results,
        r ∈ results.results) := by
  refine ⟨?_, ?_, ?_⟩
  · exact filter_map_get_eq_filterMap results.results _
  · intro hm
    simp only [filterResults, gt_iff_lt, hm, if_true]
    rw [List.length_map]
    calc ((sources.take maxSources.toNat).filter
          (fun i => decide (0 < i ∧ i ≤ (results.results.length : Int)))).length
        ≤ (sources.take maxSources.toNat).length := List.length_filter_le _ _
      _ ≤ maxSources.toNat := by rw [List.length_take]; omega
  · intro r hr
    simp only [filterResults] at hr
    rcases List.mem_map.mp hr with ⟨i, hi, rfl⟩
    have h : 0 < i ∧ i ≤ (results.results.length : Int) :=
      of_decide_eq_true (List.mem_filter.mp hi).2
    have hlt : (i - 1).toNat < results.results.length := by omega
    rw [List.get?_eq_get hlt, Option.getD_some]
    exact List.get_mem _ _ _

/-- Witness for C2 (amended) at the counterexample's inputs. -/
theorem filterResults_spec_witness :
    (filterResults 2 (SearchResults.mk [demoDoc 1, demoDoc 2, demoDoc 3])
      [0, 1, 8, 3]).1.results.length ≤ 2
    ∧ demoDoc 1 ∈ (SearchResults.mk [demoDoc 1, demoDoc 2, demoDoc 3]).results := by
  have h := filterResults_spec 2 (SearchResults.mk [demoDoc 1, demoDoc 2, demoDoc 3])
    [0, 1, 8, 3]
  exact ⟨h.2.1 (by decide), h.2.2 (demoDoc 1) (by decide)⟩

theorem collectSummaries_ok_length {ε : Type} (g : String → Except ε String) (q : String) :
    ∀ (l : List SearchResult) (s : List String),
      collectSummaries g q l = Except.ok s → s.length = l.length := by
  intro l
  induction l with
  | nil =>
    intro s h
    simp only [collectSummaries] at h
    cases h
    rfl
  | cons a rest ih =>
    intro s h
    simp only [collectSummaries] at h
    cases hg : summarizeContentAsync g q a with
    | error e => rw [hg] at h; cases h
    | ok v =>
      rw [hg] at h
      cases hr : collectSummaries g q rest with
      | error e => rw [hr] at h; cases h
      | ok vs =>
        rw [hr] at h
        cases h
        simp [ih vs hr]

/-- C3 counterexample: a document whose provider text is empty is dropped
from the output result set entirely, not passed through with a null
summary. -/
theorem processSearchResults_drops_empty_counterexample :
    processSearchResultsWithSummarization demoGenOk "q" [demoEmptyDoc]
      = Except.ok ([] : List SearchResult)
    ∧ demoEmptyDoc ∉ ([] : List SearchResult) := by
  exact ⟨rfl, by simp⟩

/-- C3 amended: when the summarization join succeeds, the output result
set consists of exactly the input documents with non-empty raw text, in
input order — documents with empty raw text are excluded from the
summarization fan-out and also dropped from the result set — and every
output document carries a summary. -/
theorem processSearchResults_spec {ε : Type} (generateText : String → Except ε String)
    (query : String) (results out : List SearchResult)
    (h : processSearchResultsWithSummarization generateText query results = Except.ok out) :
    out.map (fun r => r.link)
      = (results.filter (fun r => r.content != "")).map (fun r => r.link)
    ∧ ∀ r ∈ out, r.filteredRawContent.isSome := by
  simp only [processSearchResultsWithSummarization] at h
  cases hs : collectSummaries generateText query
    (results.filter (fun r => r.content != "")) with
  | error e => rw [hs] at h; cases h
  | ok sums =>
    rw [hs] at h
    cases h
    have hlen : sums.length = (results.filter (fun r => r.content != "")).length :=
      collectSummaries_ok_length generateText query _ sums hs
    constructor
    · rw [List.map_map]
      have hcomp : ((fun r => r.link) ∘ fun p : SearchResult × String =>
          ({ title := p.1.title, link := p.1.link, content := p.1.content,
             filteredRawContent := some p.2 } : SearchResult))
          = fun p : SearchResult × String => p.1.link := rfl
      rw [hcomp]
      have hfst : ((results.filter (fun r => r.content != "")).zip sums).map
          (fun p : SearchResult × String => p.1.link)
          = (((results.filter (fun r => r.content != "")).zip sums).map
            Prod.fst).map (fun r => r.link) := by
        rw [List.map_map]
        rfl
      rw [hfst, List.map_fst_zip _ _ (Nat.le_of_eq hlen.symm)]
    · intro r hr
      rcases List.mem_map.mp hr with ⟨p, _, rfl⟩
      rfl

/-- Witness for C3 (amended) at a batch containing one empty-text and one
non-empty-text document. -/
theorem processSearchResults_spec_witness :
    ([⟨"t1", "u1", "c1", some "summary"⟩] : List SearchResult).map (fun r => r.link)
      = ([demoDoc 1, demoEmptyDoc].filter (fun r => r.content != "")).map (fun r => r.link)
    ∧ (⟨"t1", "u1", "c1", some "summary"⟩ : SearchResult).filteredRawContent.isSome := by
  have h := processSearchResults_spec demoGenOk "q" [demoDoc 1, demoEmptyDoc]
    [⟨"t1", "u1", "c1", some "summary"⟩] (by rfl)
  exact ⟨h.1, h.2 ⟨"t1", "u1", "c1", some "summary"⟩ (by simp)⟩

theorem collectSummaries_error_of_mem {ε : Type} (g : String → Except ε String)
    (q : String) :
    ∀ (l : List SearchResult) (r : SearchResult) (e : ε),
      r ∈ l → summarizeContentAsync g q r = Except.error e →
      (collectSummaries g q l).isOk = false := by
  intro l
  induction l with
  | nil => intro r e hr _; simp at hr
  | cons a rest ih =>
    intro r e hr hfail
    simp only [collectSummaries]
    cases hg : summarizeContentAsync g q a with
    | error e2 => rfl
    | ok v =>
      rcases List.mem_cons.mp hr with rfl | hr'
      · rw [hg] at hfail; cases hfail
      · have hrec := ih r e hr' hfail
        cases hr2 : collectSummaries g q rest with
        | error e3 => rfl
        | ok vs =>
          rw [hr2] at hrec
          exact Bool.noConfusion hrec

/-- C4 counterexample: a summarization failure for a single document
(here `demoDoc 1`, while the sibling `demoDoc 2` summarizes fine) fails
the whole batch instead of degrading to the raw text. -/
theorem summarization_failure_counterexample :
    processSearchResultsWithSummarization demoGenSel "q" [demoDoc 2, demoDoc 1]
      = Except.error "boom" := by
  rfl

/-- C4 amended: a rejection of the summarization collaborator on any
document with non-empty raw text is not caught locally: it propagates
through the `Promise.all` join and fails the entire
`processSearchResultsWithSummarization` batch; no raw-text fallback
exists. -/
theorem summarization_failure_spec {ε : Type} (generateText : String → Except ε String)
    (query : String) (results : List SearchResult) (r : SearchResult) (e : ε)
    (hmem : r ∈ results) (hne : r.content ≠ "")
    (hfail : generateText (rawContentSummarizerInput r.content query) = Except.error e) :
    (processSearchResultsWithSummarization generateText query results).isOk = false := by
  have hr : r ∈ results.filter (fun x => x.content != "") :=
    List.mem_filter.mpr ⟨hmem, by simpa using hne⟩
  have hjoin := collectSummaries_error_of_mem generateText query _ r e hr hfail
  simp only [processSearchResultsWithSummarization]
  cases hs : collectSummaries generateText query
    (results.filter (fun x => x.content != "")) with
  | error e2 => rfl
  | ok sums =>
    rw [hs] at hjoin
    exact Bool.noConfusion hjoin

/-- Witness for C4 (amended) at the counterexample's batch. -/
theorem summarization_failure_spec_witness :
    (processSearchResultsWithSummarization demoGenSel "q"
      [demoDoc 2, demoDoc 1]).isOk = false := by
  exact summarization_failure_spec demoGenSel "q" [demoDoc 2, demoDoc 1]
    (demoDoc 1) "boom" (by decide) (by decide) (by rfl)

theorem fsRead_fsWrite_self (fs : FS) (p : String) (d : FileData) :
    fsRead (fsWrite fs p d) p = some d := by
  simp [fsRead, fsWrite, List.find?_cons]

theorem find?_filter_ne :
    ∀ (fs : FS) {p q : String}, q ≠ p →
      (fs.filter (fun e => e.1 != p)).find? (fun e => e.1 == q)
        = fs.find? (fun e => e.1 == q) := by
  intro fs
  induction fs with
  | nil => intro p q _; rfl
  | cons a fs ih =>
    intro p q h
    by_cases ha : a.1 = p
    · have h2 : (a.1 == q) = false := by
        refine beq_eq_false_iff_ne.mpr ?_
        rw [ha]
        exact fun hc => h hc.symm
      rw [List.filter_cons, if_neg (by simp [ha])]
      rw [List.find?_cons]
      simp only [h2]
      exact ih h
    · rw [List.filter_cons, if_pos (by simp [ha])]
      rw [List.find?_cons, List.find?_cons]
      by_cases h2 : a.1 = q
      · simp [h2]
      · have h3 : (a.1 == q) = false := beq_eq_false_iff_ne.mpr h2
        simp only [h3]
        exact ih h

theorem fsRead_fsWrite_ne (fs : FS) {p q : String} (h : q ≠ p) (d : FileData) :
    fsRead (fsWrite fs p d) q = fsRead fs q := by
  have h2 : (p == q) = false := beq_eq_false_iff_ne.mpr (fun hc => h hc.symm)
  simp only [fsRead, fsWrite, List.find?_cons, h2]
  rw [find?_filter_ne fs h]

theorem fsRead_fsUnlink_self (fs : FS) (p : String) :
    fsRead (fsUnlink fs p) p = none := by
  induction fs with
  | nil => rfl
  | cons a fs ih =>
    show fsRead ((a :: fs).filter (fun e => e.1 != p)) p = none
    by_cases ha : a.1 = p
    · rw [List.filter_cons, if_neg (by simp [ha])]
      exact ih
    · rw [List.filter_cons, if_pos (by simp [ha])]
      have h3 : (a.1 == p) = false := beq_eq_false_iff_ne.mpr ha
      simp only [fsRead, List.find?_cons, h3]
      exact ih

theorem fsRead_fsUnlink_ne (fs : FS) {p q : String} (h : q ≠ p) :
    fsRead (fsUnlink fs p) q = fsRead fs q := by
  simp only [fsRead, fsUnlink]
  rw [find?_filter_ne fs h]

theorem fsExists_fsWrite_self (fs : FS) (p : String) (d : FileData) :
    fsExists (fsWrite fs p d) p = true := by
  unfold fsExists
  rw [fsRead_fsWrite_self]
  rfl

theorem fsExists_fsUnlinkIfExists_self (fs : FS) (p : String) :
    fsExists (fsUnlinkIfExists fs p) p = false := by
  by_cases h : fsExists fs p = true
  · rw [fsUnlinkIfExists, if_pos h]
    unfold fsExists
    rw [fsRead_fsUnlink_self]
    rfl
  · rw [fsUnlinkIfExists, if_neg h]
    exact Bool.not_eq_true _ ▸ h

theorem getLockPath_ne (p : String) : getLockPath p ≠ p := by
  intro hc
  have h1 : (getLockPath p).length = p.length := congrArg String.length hc
  rw [getLockPath, String.length_append] at h1
  have h2 : (".lock" : String).length = 5 := rfl
  omega

/-- C7: with caching enabled, a `saveToCache` of `r` under query `q`
whose write succeeds, followed by `loadFromCache` for the same query with
no intervening write, returns exactly `r`; and `loadFromCache` for a
query whose cache file does not exist returns absent. -/
theorem cache_round_trip_spec (md5 : String → String) (cacheDir query : String)
    (r : SearchResults) (fs : FS) :
    ((saveToCache true md5 cacheDir query r true fs).1 = true
      ∧ loadFromCache true md5 cacheDir
          (saveToCache true md5 cacheDir query r true fs).2 query = some r)
    ∧ (∀ (fs2 : FS) (q2 : String),
        fsRead fs2 (getCachePath md5 cacheDir q2) = none →
        loadFromCache true md5 cacheDir fs2 q2 = none) := by
  have hne : getLockPath (getCachePath md5 cacheDir query)
      ≠ getCachePath md5 cacheDir query := getLockPath_ne _
  constructor
  · have hexists : fsExists
        (fsWrite (fsWrite fs (getLockPath (getCachePath md5 cacheDir query)) FileData.empty)
          (getCachePath md5 cacheDir query) (FileData.json r.results))
        (getLockPath (getCachePath md5 cacheDir query)) = true := by
      unfold fsExists
      rw [fsRead_fsWrite_ne _ hne, fsRead_fsWrite_self]
      rfl
    have hfinal : (saveToCache true md5 cacheDir query r true fs).2
        = fsUnlink
            (fsWrite (fsWrite fs (getLockPath (getCachePath md5 cacheDir query)) FileData.empty)
              (getCachePath md5 cacheDir query) (FileData.json r.results))
            (getLockPath (getCachePath md5 cacheDir query)) := by
      show fsUnlinkIfExists _ _ = _
      rw [fsUnlinkIfExists, hexists, if_pos rfl]
    refine ⟨rfl, ?_⟩
    rw [hfinal]
    have h1 : fsRead
        (fsUnlink
          (fsWrite (fsWrite fs (getLockPath (getCachePath md5 cacheDir query)) FileData.empty)
            (getCachePath md5 cacheDir query) (FileData.json r.results))
          (getLockPath (getCachePath md5 cacheDir query)))
        (getCachePath md5 cacheDir query) = some (FileData.json r.results) := by
      rw [fsRead_fsUnlink_ne _ (fun hc => hne hc.symm), fsRead_fsWrite_self]
    have h2 : fsRead
        (fsUnlink
          (fsWrite (fsWrite fs (getLockPath (getCachePath md5 cacheDir query)) FileData.empty)
            (getCachePath md5 cacheDir query) (FileData.json r.results))
          (getLockPath (getCachePath md5 cacheDir query)))
        (getLockPath (getCachePath md5 cacheDir query)) = none :=
      fsRead_fsUnlink_self _ _
    simp only [loadFromCache, fsExists, h1, h2, Option.isSome_some, Option.isSome_none]
    rfl
  · intro fs2 q2 h
    simp [loadFromCache, fsExists, h]

/-- Witness for C7: a put/get round trip on the empty directory, and a
get for a query that was never put. -/
theorem cache_round_trip_spec_witness :
    loadFromCache true (fun s => s) "cache" ([] : FS) "q" = none
    ∧ loadFromCache true (fun s => s) "cache"
        (saveToCache true (fun s => s) "cache" "q" (SearchResults.mk [demoDoc 1])
          true ([] : FS)).2 "q"
      = some (SearchResults.mk [demoDoc 1]) := by
  have h := cache_round_trip_spec (fun s => s) "cache" "q"
    (SearchResults.mk [demoDoc 1]) ([] : FS)
  exact ⟨h.2 ([] : FS) "q" rfl, h.1.2⟩

/-- C8: `saveToCache` (with caching enabled) creates the lock marker
before attempting the cache-entry write, and on both exit paths — the
write succeeded, or the write failed and the error is rethrown — the
resulting directory no longer contains the lock marker for that key. -/
theorem saveToCache_lock_release_spec (md5 : String → String)
    (cacheDir query : String) (r : SearchResults) (writeOk : Bool) (fs : FS) :
    fsExists (saveToCache true md5 cacheDir query r writeOk fs).2
      (getLockPath (getCachePath md5 cacheDir query)) = false
    ∧ saveToCache true md5 cacheDir query r writeOk fs
        = saveToCacheAcquired (getCachePath md5 cacheDir query)
            (getLockPath (getCachePath md5 cacheDir query)) r writeOk
            (fsWrite fs (getLockPath (getCachePath md5 cacheDir query)) FileData.empty)
    ∧ fsExists (fsWrite fs (getLockPath (getCachePath md5 cacheDir query)) FileData.empty)
        (getLockPath (getCachePath md5 cacheDir query)) = true := by
  refine ⟨?_, rfl, fsExists_fsWrite_self _ _ _⟩
  cases writeOk with
  | false => exact fsExists_fsUnlinkIfExists_self _ _
  | true => exact fsExists_fsUnlinkIfExists_self _ _

end DeepResearch
